import Mathlib

set_option maxHeartbeats 1000000

namespace SecMon

/-!
Shallow embedding of `src/security_monitor.py` (MAGLaboratory/security_monitor).

Modelling conventions:
* bytes are `Nat` values below 256, byte strings (`bytes`) are `List Nat`;
* Python `multiprocessing.Queue` objects are FIFO lists (`put` appends,
  `get` takes the head, `empty`-draining makes the list `[]`);
* `assert` failures that the surrounding code catches are `Option`/result
  failures; uncaught exceptions make a function return `none`.
-/

/-- The base64 alphabet used by Python's `base64.b64encode`. -/
def b64chars : List Char :=
  "ABCDEFGHIJKLMNOPQRSTUVWXYZabcdefghijklmnopqrstuvwxyz0123456789+/".toList

/-- Character encoding one 6-bit group. -/
def b64char (n : Nat) : Char := b64chars.getD n 'A'

def b64valAux : List Char → Nat → Char → Option Nat
  | [], _, _ => none
  | c :: rest, i, d => if c = d then some i else b64valAux rest (i + 1) d

/-- Index of a character in the base64 alphabet (`none` for a non-alphabet
character, in particular for the padding character). -/
def b64val (c : Char) : Option Nat := b64valAux b64chars 0 c

/-- Padded base64 encoding of a byte list, as produced by Python's
`base64.b64encode`: full 3-byte groups become 4 alphabet characters, a
trailing 1-byte (resp. 2-byte) group becomes 2 (resp. 3) characters plus
`'='` padding up to a multiple of 4. -/
def b64encodePadded : List Nat → List Char
  | [] => []
  | [a] => [b64char (a / 4), b64char (a % 4 * 16), '=', '=']
  | [a, b] => [b64char (a / 4), b64char (a % 4 * 16 + b / 16), b64char (b % 16 * 4), '=']
  | a :: b :: c :: rest =>
      b64char (a / 4) :: b64char (a % 4 * 16 + b / 16) ::
        b64char (b % 16 * 4 + c / 64) :: b64char (c % 64) :: b64encodePadded rest

/-- Base64 decoding of a correctly padded character list, as performed by
Python's `base64.b64decode` on well-formed input: groups of 4 characters,
`'='` padding allowed only in the final group. -/
def b64decodeChars : List Char → Option (List Nat)
  | [] => some []
  | a :: b :: c :: d :: rest =>
      match b64val a, b64val b with
      | some va, some vb =>
          if c = '=' then
            if d = '=' then (if rest = [] then some [va * 4 + vb / 16] else none) else none
          else
            match b64val c with
            | some vc =>
                if d = '=' then
                  (if rest = [] then some [va * 4 + vb / 16, vb % 16 * 16 + vc / 4] else none)
                else
                  match b64val d, b64decodeChars rest with
                  | some vd, some tail =>
                      some ((va * 4 + vb / 16) :: (vb % 16 * 16 + vc / 4) ::
                        (vc % 4 * 64 + vd) :: tail)
                  | _, _ => none
            | none => none
      | _, _ => none
  | _ => none

theorem b64val_b64char : ∀ n, n < 64 → b64val (b64char n) = some n := by decide

theorem b64chars_length : b64chars.length = 64 := by decide

theorem b64char_ne_pad (n : Nat) : b64char n ≠ '=' := by
  have hlt : ∀ m, m < 64 → b64char m ≠ '=' := by decide
  rcases Nat.lt_or_ge n 64 with h | h
  · exact hlt n h
  · unfold b64char
    rw [List.getD_eq_default]
    · decide
    · rw [b64chars_length]; exact h

theorem b64char_not_ws (n : Nat) : ¬ (b64char n).isWhitespace := by
  have hlt : ∀ m, m < 64 → ¬ (b64char m).isWhitespace := by decide
  rcases Nat.lt_or_ge n 64 with h | h
  · exact hlt n h
  · unfold b64char
    rw [List.getD_eq_default]
    · decide
    · rw [b64chars_length]; exact h

/-- Decoding is a left inverse of padded encoding on genuine byte lists. -/
theorem b64_decode_encode : ∀ bs : List Nat, (∀ x ∈ bs, x < 256) →
    b64decodeChars (b64encodePadded bs) = some bs
  | [], _ => rfl
  | [a], h => by
      have ha : a < 256 := h a (by simp)
      have h1 : b64val (b64char (a / 4)) = some (a / 4) := b64val_b64char _ (by omega)
      have h2 : b64val (b64char (a % 4 * 16)) = some (a % 4 * 16) := b64val_b64char _ (by omega)
      simp [b64encodePadded, b64decodeChars, h1, h2]
      omega
  | [a, b], h => by
      have ha : a < 256 := h a (by simp)
      have hb : b < 256 := h b (by simp)
      have h1 : b64val (b64char (a / 4)) = some (a / 4) := b64val_b64char _ (by omega)
      have h2 : b64val (b64char (a % 4 * 16 + b / 16)) = some (a % 4 * 16 + b / 16) :=
        b64val_b64char _ (by omega)
      have h3 : b64val (b64char (b % 16 * 4)) = some (b % 16 * 4) :=
        b64val_b64char _ (by omega)
      simp [b64encodePadded, b64decodeChars, h1, h2, h3, b64char_ne_pad]
      omega
  | [a, b, c], h => by
      have ha : a < 256 := h a (by simp)
      have hb : b < 256 := h b (by simp)
      have hc : c < 256 := h c (by simp)
      have h1 : b64val (b64char (a / 4)) = some (a / 4) := b64val_b64char _ (by omega)
      have h2 : b64val (b64char (a % 4 * 16 + b / 16)) = some (a % 4 * 16 + b / 16) :=
        b64val_b64char _ (by omega)
      have h3 : b64val (b64char (b % 16 * 4 + c / 64)) = some (b % 16 * 4 + c / 64) :=
        b64val_b64char _ (by omega)
      have h4 : b64val (b64char (c % 64)) = some (c % 64) := b64val_b64char _ (by omega)
      simp [b64encodePadded, b64decodeChars, h1, h2, h3, h4, b64char_ne_pad]
      omega
  | a :: b :: c :: d :: rest, h => by
      have ha : a < 256 := h a (by simp)
      have hb : b < 256 := h b (by simp)
      have hc : c < 256 := h c (by simp)
      have ih : b64decodeChars (b64encodePadded (d :: rest)) = some (d :: rest) :=
        b64_decode_encode (d :: rest) (fun x hx => h x (by simp [hx]))
      have h1 : b64val (b64char (a / 4)) = some (a / 4) := b64val_b64char _ (by omega)
      have h2 : b64val (b64char (a % 4 * 16 + b / 16)) = some (a % 4 * 16 + b / 16) :=
        b64val_b64char _ (by omega)
      have h3 : b64val (b64char (b % 16 * 4 + c / 64)) = some (b % 16 * 4 + c / 64) :=
        b64val_b64char _ (by omega)
      have h4 : b64val (b64char (c % 64)) = some (c % 64) := b64val_b64char _ (by omega)
      simp [b64encodePadded, b64decodeChars, h1, h2, h3, h4, b64char_ne_pad, ih]
      omega

/-- Remove trailing `'='` characters (the `.rstrip('=')` in `Utils.b64enc`). -/
def rstripEq (l : List Char) : List Char := (l.reverse.dropWhile fun c => c = '=').reverse

/-- `Utils.b64enc`: encode in b64 (and without the padding). -/
def b64enc (bs : List Nat) : String := String.mk (rstripEq (b64encodePadded bs))

/-- Character-list form of `Utils.b64pad`: append `(4 - len % 4) % 4` padding
characters. -/
def padChars (l : List Char) : List Char :=
  l ++ List.replicate ((4 - l.length % 4) % 4) '='

/-- `Utils.b64pad`: pad for the python b64 library. -/
def b64pad (s : String) : String := String.mk (padChars s.data)

theorem dropWhile_append_bool (p : Char → Bool) :
    ∀ xs ys : List Char, List.dropWhile p (xs ++ ys) =
      if (List.dropWhile p xs).isEmpty then List.dropWhile p ys
      else List.dropWhile p xs ++ ys
  | [], ys => by simp
  | x :: xs, ys => by
      simp only [List.cons_append, List.dropWhile_cons]
      cases hpx : p x
      · simp [hpx]
      · simp [hpx, dropWhile_append_bool p xs ys]

theorem rstrip_pad2 (k1 k2 : Char) (h : k2 ≠ '=') : rstripEq [k1, k2, '=', '='] = [k1, k2] := by
  simp [rstripEq, List.dropWhile_cons, h]

theorem rstrip_pad1 (k1 k2 k3 : Char) (h : k3 ≠ '=') :
    rstripEq [k1, k2, k3, '='] = [k1, k2, k3] := by
  simp [rstripEq, List.dropWhile_cons, h]

theorem rstrip_cons4 (k1 k2 k3 k4 : Char) (X : List Char) (h : k4 ≠ '=') :
    rstripEq (k1 :: k2 :: k3 :: k4 :: X) = k1 :: k2 :: k3 :: k4 :: rstripEq X := by
  have hrev : (k1 :: k2 :: k3 :: k4 :: X).reverse = X.reverse ++ [k4, k3, k2, k1] := by simp
  rw [rstripEq, hrev, dropWhile_append_bool]
  by_cases he : (List.dropWhile (fun c => c = '=') X.reverse).isEmpty
  · rw [if_pos he]
    have h2 : rstripEq X = [] := by
      rw [rstripEq, List.isEmpty_iff.mp he]
      rfl
    rw [h2]
    simp [List.dropWhile_cons, h]
  · rw [if_neg he]
    simp [rstripEq]

theorem padChars_cons4 (k1 k2 k3 k4 : Char) (l : List Char) :
    padChars (k1 :: k2 :: k3 :: k4 :: l) = k1 :: k2 :: k3 :: k4 :: padChars l := by
  unfold padChars
  have h : (4 - (k1 :: k2 :: k3 :: k4 :: l).length % 4) % 4 = (4 - l.length % 4) % 4 := by
    simp only [List.length_cons]
    omega
  rw [h]
  simp

/-- Re-padding the stripped encoding recovers the padded encoding: `b64pad`
undoes exactly the `.rstrip('=')` of `b64enc`. -/
theorem pad_rstrip_encode : ∀ bs : List Nat,
    padChars (rstripEq (b64encodePadded bs)) = b64encodePadded bs
  | [] => rfl
  | [a] => by
      simp only [b64encodePadded]
      rw [rstrip_pad2 _ _ (b64char_ne_pad _)]
      rfl
  | [a, b] => by
      simp only [b64encodePadded]
      rw [rstrip_pad1 _ _ _ (b64char_ne_pad _)]
      rfl
  | [a, b, c] => by
      simp only [b64encodePadded]
      rw [rstrip_cons4 _ _ _ _ _ (b64char_ne_pad _),
        show rstripEq ([] : List Char) = [] from rfl]
      simp [padChars]
  | a :: b :: c :: d :: rest => by
      simp only [b64encodePadded]
      rw [rstrip_cons4 _ _ _ _ _ (b64char_ne_pad _), padChars_cons4,
        pad_rstrip_encode (d :: rest)]

/-- `b64enc` is injective on genuine byte lists. -/
theorem b64enc_injOn (d1 d2 : List Nat) (h1 : ∀ x ∈ d1, x < 256) (h2 : ∀ x ∈ d2, x < 256)
    (he : b64enc d1 = b64enc d2) : d1 = d2 := by
  have hdata : rstripEq (b64encodePadded d1) = rstripEq (b64encodePadded d2) :=
    congrArg String.data he
  have henc : b64encodePadded d1 = b64encodePadded d2 := by
    rw [← pad_rstrip_encode d1, ← pad_rstrip_encode d2, hdata]
  have hs : some d1 = some d2 :=
    (b64_decode_encode d1 h1).symm.trans (by rw [henc]; exact b64_decode_encode d2 h2)
  exact Option.some.inj hs

/-- One step of the reflected CRC-32 bit loop (polynomial `0xEDB88320`), as
computed by zlib. -/
def crc32_step (crc : Nat) : Nat :=
  if crc % 2 = 1 then (crc / 2) ^^^ 0xEDB88320 else crc / 2

/-- Fold one byte into the running CRC. -/
def crc32_byte (crc b : Nat) : Nat := crc32_step^[8] (crc ^^^ b)

/-- `zlib.crc32` of a byte string. -/
def crc32 (bs : List Nat) : Nat := (bs.foldl crc32_byte 0xFFFFFFFF) ^^^ 0xFFFFFFFF

/-- Python `int.to_bytes(4, "little")`. -/
def le4 (n : Nat) : List Nat :=
  [n % 256, n / 256 % 256, n / 256 / 256 % 256, n / 256 / 256 / 256 % 256]

/-- `Utils.START`. -/
def START : String := "magld_"

/-- `Utils.MINCTLEN`. -/
def MINCTLEN : Nat := 2

/-- `Utils.B64CRCLEN`. -/
def B64CRCLEN : Nat := 6

/-- Python `str.rstrip()` on a character list: drop trailing whitespace. -/
def rstripWs (l : List Char) : List Char := (l.reverse.dropWhile Char.isWhitespace).reverse

/-- `Utils.token_decode`: decode and validate a token, returning the raw
secret bytes ("central token"). `none` models a failed `assert` (length,
prefix or checksum verification) or a base64 decoding error. -/
def token_decode (token : String) : Option (List Nat) :=
  let t := rstripWs token.data
  if t.length < START.length + MINCTLEN + B64CRCLEN then none
  else if (t.take START.length).map Char.toLower = START.data then
    let central := (t.drop START.length).take (t.length - START.length - B64CRCLEN)
    let end_checksum := t.drop (t.length - B64CRCLEN)
    match b64decodeChars (padChars central) with
    | none => none
    | some central_token =>
        if rstripEq (b64encodePadded (le4 (crc32 central_token))) = end_checksum
        then some central_token
        else none
  else none

/-- Modelled from the spec: the token text format of §6 — `magld_` +
unpadded-base64(secret bytes) + 6-char unpadded-base64(little-endian CRC32
of the secret bytes). The repository contains no encoder; this definition
follows the spec's words, using the same CRC construction as the decoder. -/
def encodeToken (bs : List Nat) : String :=
  String.mk (START.data ++ (b64enc bs).data ++ (b64enc (le4 (crc32 bs))).data)

/-- The stripped encoding of a 4-byte value is exactly 6 alphabet
characters. -/
theorem rstripEq_enc4 (n0 n1 n2 n3 : Nat) :
    rstripEq (b64encodePadded [n0, n1, n2, n3]) =
      [b64char (n0 / 4), b64char (n0 % 4 * 16 + n1 / 16), b64char (n1 % 16 * 4 + n2 / 64),
        b64char (n2 % 64), b64char (n3 / 4), b64char (n3 % 4 * 16)] := by
  simp only [b64encodePadded]
  rw [rstrip_cons4 _ _ _ _ _ (b64char_ne_pad _), rstrip_pad2 _ _ (b64char_ne_pad _)]

/-- The stripped encoding of a nonempty byte list has at least 2 characters
(this is what makes the `MINCTLEN` length check pass). -/
theorem rstrip_encode_len2 : ∀ bs : List Nat, bs ≠ [] →
    2 ≤ (rstripEq (b64encodePadded bs)).length
  | [], h => absurd rfl h
  | [a], _ => by
      simp only [b64encodePadded]
      rw [rstrip_pad2 _ _ (b64char_ne_pad _)]
      simp
  | [a, b], _ => by
      simp only [b64encodePadded]
      rw [rstrip_pad1 _ _ _ (b64char_ne_pad _)]
      simp
  | a :: b :: c :: rest, _ => by
      simp only [b64encodePadded]
      rw [rstrip_cons4 _ _ _ _ _ (b64char_ne_pad _)]
      simp

/-- `str.rstrip()` does nothing when the last character is not whitespace. -/
theorem rstripWs_append6 (xs : List Char) (s1 s2 s3 s4 s5 s6 : Char)
    (h : s6.isWhitespace = false) :
    rstripWs (xs ++ [s1, s2, s3, s4, s5, s6]) = xs ++ [s1, s2, s3, s4, s5, s6] := by
  unfold rstripWs
  rw [List.reverse_append]
  simp [List.dropWhile_cons, h]

/-- C5 counterexample: the claimed round-trip fails on the empty byte
string. Its token is `magld_` plus an empty body plus a 6-character
checksum — only 12 characters, which the minimum-length assertion
(`len >= len(START) + MINCTLEN + B64CRCLEN = 14`) rejects, so
`token_decode` fails instead of returning the empty byte string. -/
theorem c5_token_roundtrip_cex : token_decode (encodeToken []) = none := by decide

/-- C5 (amended): for every nonempty byte string `s`, decoding the token
`magld_` + unpadded-base64(`s`) + unpadded-base64(little-endian CRC32 of
`s`) returns exactly `s` — including the one-byte case; the empty byte
string is the single exception, rejected by the minimum-length check. -/
theorem c5_token_roundtrip (bs : List Nat) (hne : bs ≠ []) (hb : ∀ x ∈ bs, x < 256) :
    token_decode (encodeToken bs) = some bs := by
  set m := crc32 bs with hm
  set B := rstripEq (b64encodePadded bs) with hBdef
  set S := rstripEq (b64encodePadded (le4 m)) with hSdef
  have hP : START.data.length = 6 := rfl
  have hS6 : S = [b64char (m % 256 / 4), b64char (m % 256 % 4 * 16 + m / 256 % 256 / 16),
      b64char (m / 256 % 256 % 16 * 4 + m / 256 / 256 % 256 / 64),
      b64char (m / 256 / 256 % 256 % 64), b64char (m / 256 / 256 / 256 % 256 / 4),
      b64char (m / 256 / 256 / 256 % 256 % 4 * 16)] := by
    rw [hSdef, le4]
    exact rstripEq_enc4 _ _ _ _
  have hBlen : 2 ≤ B.length := rstrip_encode_len2 bs hne
  have hSlen : S.length = 6 := by rw [hS6]; rfl
  have hdata : (encodeToken bs).data = (START.data ++ B) ++ S := by
    simp [encodeToken, b64enc, List.append_assoc, hBdef, hSdef, hm]
  have ht : rstripWs (encodeToken bs).data = (START.data ++ B) ++ S := by
    rw [hdata, hS6]
    exact rstripWs_append6 _ _ _ _ _ _ _ (by simpa using b64char_not_ws _)
  have hL : ((START.data ++ B) ++ S).length = B.length + 12 := by
    simp only [List.length_append, hP, hSlen]
    omega
  have h14 : START.length + MINCTLEN + B64CRCLEN = 14 := rfl
  simp only [token_decode]
  rw [ht]
  have hc1 : ¬ (((START.data ++ B) ++ S).length < START.length + MINCTLEN + B64CRCLEN) := by
    rw [hL, h14]
    omega
  rw [if_neg hc1]
  have htake : ((START.data ++ B) ++ S).take START.length = START.data := by
    rw [List.append_assoc]
    exact List.take_left' rfl
  have hc2 : (((START.data ++ B) ++ S).take START.length).map Char.toLower = START.data := by
    rw [htake]
    decide
  rw [if_pos hc2]
  have hcentral : (((START.data ++ B) ++ S).drop START.length).take
      (((START.data ++ B) ++ S).length - START.length - B64CRCLEN) = B := by
    have hdrop : ((START.data ++ B) ++ S).drop START.length = B ++ S := by
      rw [List.append_assoc]
      exact List.drop_left' rfl
    have hlen2 : ((START.data ++ B) ++ S).length - START.length - B64CRCLEN = B.length := by
      rw [hL, show START.length = 6 from rfl, show B64CRCLEN = 6 from rfl]
      omega
    rw [hdrop, hlen2]
    exact List.take_left B S
  have hend : ((START.data ++ B) ++ S).drop (((START.data ++ B) ++ S).length - B64CRCLEN) = S := by
    have hlen3 : ((START.data ++ B) ++ S).length - B64CRCLEN = (START.data ++ B).length := by
      rw [hL, show B64CRCLEN = 6 from rfl]
      simp only [List.length_append, hP]
      omega
    rw [hlen3]
    exact List.drop_left _ _
  have hdec : b64decodeChars (padChars B) = some bs := by
    rw [hBdef, pad_rstrip_encode]
    exact b64_decode_encode bs hb
  simp only [hcentral, hend, hdec]
  simp

/-- C5 witness: the amended round-trip at the concrete byte string
`[42, 255]`. -/
theorem c5_token_roundtrip_witness :
    ([42, 255] : List Nat) ≠ [] ∧ token_decode (encodeToken [42, 255]) = some [42, 255] :=
  ⟨by decide, c5_token_roundtrip [42, 255] (by decide) (by decide)⟩

/-- The iterative loop of `SecurityMonitor.calc_div`: `index` times, add a
column when `col <= row` ("column number priority"), else add a row. -/
def calc_div_loop : Nat → Nat → Nat → Nat × Nat
  | 0, col, row => (col, row)
  | n + 1, col, row =>
      if col ≤ row then calc_div_loop n (col + 1) row else calc_div_loop n col (row + 1)

/-- `SecurityMonitor.calc_div`: calculate the number of divisions based on a
magic index number; returns `[columns, rows, columns * rows]`. The Python
`assert index >= 0` restricts the domain, so the argument is a `Nat`. -/
def calc_div (index : Nat) : List Nat :=
  let p := calc_div_loop index 1 1
  [p.1, p.2, p.1 * p.2]

/-- The spec's greedy growth rule, stated in the spec's own words ("start at
1×1; each increment adds a column if columns ≤ rows, else a row"); named
separately so `calc_div` can be compared against it. -/
def growthRuleSpec (d : Nat) : Nat × Nat :=
  (fun p : Nat × Nat => if p.1 ≤ p.2 then (p.1 + 1, p.2) else (p.1, p.2 + 1))^[d] (1, 1)

theorem calc_div_loop_iterate : ∀ (n c r : Nat),
    calc_div_loop n c r =
      (fun p : Nat × Nat => if p.1 ≤ p.2 then (p.1 + 1, p.2) else (p.1, p.2 + 1))^[n] (c, r)
  | 0, _, _ => rfl
  | n + 1, c, r => by
      rw [Function.iterate_succ_apply]
      simp only [calc_div_loop]
      by_cases h : c ≤ r
      · simp only [if_pos h, calc_div_loop_iterate n]
      · simp only [if_neg h, calc_div_loop_iterate n]

theorem calc_div_loop_bounds : ∀ (n c r : Nat), r ≤ c → c ≤ r + 1 →
    (calc_div_loop n c r).2 ≤ (calc_div_loop n c r).1 ∧
      (calc_div_loop n c r).1 ≤ (calc_div_loop n c r).2 + 1
  | 0, _, _, h1, h2 => ⟨h1, h2⟩
  | n + 1, c, r, h1, h2 => by
      simp only [calc_div_loop]
      by_cases h : c ≤ r
      · rw [if_pos h]
        exact calc_div_loop_bounds n (c + 1) r (by omega) (by omega)
      · rw [if_neg h]
        exact calc_div_loop_bounds n c (r + 1) (by omega) (by omega)

/-- C6: for every division index `d`, `calc_div d` is exactly the spec's
greedy column-then-row growth rule applied `d` times from `(1, 1)` paired
with the player count `columns * rows`; consequently
`rows ≤ columns ≤ rows + 1`, and in particular `calc_div 1 = [2, 1, 2]`. -/
theorem c6_calc_div (d : Nat) :
    calc_div d = [(growthRuleSpec d).1, (growthRuleSpec d).2,
      (growthRuleSpec d).1 * (growthRuleSpec d).2]
    ∧ (growthRuleSpec d).2 ≤ (growthRuleSpec d).1
    ∧ (growthRuleSpec d).1 ≤ (growthRuleSpec d).2 + 1
    ∧ calc_div 1 = [2, 1, 2] := by
  have hg : growthRuleSpec d = calc_div_loop d 1 1 := (calc_div_loop_iterate d 1 1).symm
  have hb := calc_div_loop_bounds d 1 1 (le_refl 1) (by omega)
  refine ⟨?_, ?_, ?_, by decide⟩
  · simp [calc_div, hg]
  · rw [hg]; exact hb.1
  · rw [hg]; exact hb.2

/-- The three shapes of position strings produced by
`SecurityMonitor._gen_pos`: left-aligned `"+0"`, centred `"+{off}%"`, and
right-aligned `"-0"`. -/
inductive PosAnchor where
  | left : PosAnchor
  | mid (off : Nat) : PosAnchor
  | right : PosAnchor
deriving DecidableEq

/-- `SecurityMonitor._gen_pos`: generate the position component for one axis
from the number of divisions and the position index. -/
def gen_pos (div pos : Nat) : PosAnchor :=
  if pos = 0 then .left
  else if pos < div - 1 then .mid (100 * pos / div)
  else .right

/-- The text of a position component (the exact f-string pieces used by
`_gen_pos`). -/
def posStringOf : PosAnchor → String
  | .left => "+0"
  | .mid off => "+" ++ toString off ++ "%"
  | .right => "-0"

/-- The geometry of one tile as structured data: percent width and height
plus the two anchors. -/
structure GeoSpec where
  wPct : Nat
  hPct : Nat
  xAnchor : PosAnchor
  yAnchor : PosAnchor
deriving DecidableEq

/-- `SecurityMonitor._gen_geo_str`, split into its structured content: width
`100 // columns` percent, height `100 // rows` percent, and the two
`_gen_pos` components for the column and row positions. -/
def gen_geo (cols rows col row : Nat) : GeoSpec :=
  ⟨100 / cols, 100 / rows, gen_pos cols col, gen_pos rows row⟩

/-- The exact geometry string `_gen_geo_str` assembles from the structured
content. -/
def geoStringOf (g : GeoSpec) : String :=
  toString g.wPct ++ "%x" ++ toString g.hPct ++ "%" ++
    posStringOf g.xAnchor ++ posStringOf g.yAnchor

/-- `SecurityMonitor._idx2pos`: tile index to `(column, row)` position. -/
def idx2pos (cols idx : Nat) : Nat × Nat := (idx % cols, idx / cols)

/-- Offset, in percent, of an anchored tile of size `w` percent on a
100-percent axis: left-aligned at 0, centred at the computed offset,
right-aligned at `100 - w`. -/
def anchorOff (w : Nat) : PosAnchor → Nat
  | .left => 0
  | .mid off => off
  | .right => 100 - w

/-- The point `(x, y)` (in percent) lies in the half-open rectangle of a
tile geometry. -/
def inTile (g : GeoSpec) (x y : Nat) : Prop :=
  anchorOff g.wPct g.xAnchor ≤ x ∧ x < anchorOff g.wPct g.xAnchor + g.wPct ∧
    anchorOff g.hPct g.yAnchor ≤ y ∧ y < anchorOff g.hPct g.yAnchor + g.hPct

instance (g : GeoSpec) (x y : Nat) : Decidable (inTile g x y) := by
  unfold inTile
  infer_instance

/-- The point `(x, y)` is covered by some tile of the `cols × rows`
division, each tile placed by `_idx2pos` and `_gen_geo_str`. -/
def covered (cols rows x y : Nat) : Prop :=
  ∃ idx, idx < cols * rows ∧
    inTile (gen_geo cols rows (idx2pos cols idx).1 (idx2pos cols idx).2) x y

instance (cols rows x y : Nat) : Decidable (covered cols rows x y) := by
  unfold covered
  infer_instance

/-- C7 counterexample: the claim fails on the code in two ways. In the
3×2 division (division index 3) the integer width `100 // 3 = 33` leaves
the vertical strip at `x = 66` covered by no tile, so the rectangles do
not tile the full area; and in the 102×101 division (division index 201)
columns 51 and 52 produce the same geometry, so the generator is not
injective over `(col, row)` pairs. -/
theorem c7_geometry_cex :
    calc_div 3 = [3, 2, 6] ∧ ¬ covered 3 2 66 0 ∧
      calc_div 201 = [102, 101, 10302] ∧
      (51 ≠ 52 ∧ gen_geo 102 101 51 0 = gen_geo 102 101 52 0) := by decide

theorem div_add_div_le (a b c : Nat) (hc : 0 < c) : a / c + b / c ≤ (a + b) / c := by
  rw [Nat.le_div_iff_mul_le hc, Nat.add_mul]
  exact Nat.add_le_add (Nat.div_mul_le_self a c) (Nat.div_mul_le_self b c)

/-- The centred offsets `100 * pos // div` are strictly increasing in the
position as long as `div ≤ 101` (for `div = 102` they collide). -/
theorem gen_pos_mid_lt (div a b : Nat) (hdiv : div ≤ 101) (ha : 0 < a) (hab : a < b)
    (hb : b < div - 1) : 100 * a / div < 100 * b / div := by
  have hdivpos : 0 < div := by omega
  rcases Nat.lt_or_ge div 101 with hlt | hge
  · have step : (100 * a + div) / div = 100 * a / div + 1 := Nat.add_div_right _ hdivpos
    have mono : (100 * a + div) / div ≤ 100 * b / div := Nat.div_le_div_right (by omega)
    omega
  · have h101 : div = 101 := by omega
    subst h101
    have hmod : 100 * a % 101 ≠ 0 := by
      intro hmod0
      have hdvd : (101 : Nat) ∣ 100 * a := Nat.dvd_of_mod_eq_zero hmod0
      have hdvda : (101 : Nat) ∣ a := Nat.Coprime.dvd_of_dvd_mul_left (by decide) hdvd
      have := Nat.le_of_dvd ha hdvda
      omega
    have hqr := Nat.div_add_mod (100 * a) 101
    have hrlt : 100 * a % 101 < 101 := Nat.mod_lt _ (by norm_num)
    have h2 : 101 * (100 * a / 101 + 1) ≤ 100 * a + 100 := by omega
    have h1 : 101 * (100 * a / 101 + 1) / 101 = 100 * a / 101 + 1 :=
      Nat.mul_div_cancel_left _ (by norm_num)
    have h3 : 100 * a / 101 + 1 ≤ (100 * a + 100) / 101 := by
      rw [← h1]
      exact Nat.div_le_div_right h2
    have mono : (100 * a + 100) / 101 ≤ 100 * b / 101 := Nat.div_le_div_right (by omega)
    omega

theorem gen_pos_ne_of_lt (div p1 p2 : Nat) (hdiv : div ≤ 101) (hlt : p1 < p2)
    (h2 : p2 < div) : gen_pos div p1 ≠ gen_pos div p2 := by
  unfold gen_pos
  by_cases hz1 : p1 = 0
  · rw [if_pos hz1, if_neg (by omega : ¬ p2 = 0)]
    by_cases hm2 : p2 < div - 1
    · rw [if_pos hm2]
      exact fun h => PosAnchor.noConfusion h
    · rw [if_neg hm2]
      exact fun h => PosAnchor.noConfusion h
  · rw [if_neg hz1, if_neg (by omega : ¬ p2 = 0)]
    by_cases hm1 : p1 < div - 1
    · by_cases hm2 : p2 < div - 1
      · rw [if_pos hm1, if_pos hm2]
        intro h
        injection h with hv
        have := gen_pos_mid_lt div p1 p2 hdiv (by omega) hlt hm2
        omega
      · rw [if_pos hm1, if_neg hm2]
        exact fun h => PosAnchor.noConfusion h
    · exfalso
      omega

/-- Within a division of at most 101 columns (rows), `_gen_pos` is
injective on valid positions. -/
theorem gen_pos_inj (div p1 p2 : Nat) (hdiv : div ≤ 101) (h1 : p1 < div) (h2 : p2 < div)
    (he : gen_pos div p1 = gen_pos div p2) : p1 = p2 := by
  rcases Nat.lt_trichotomy p1 p2 with hlt | heq | hgt
  · exact absurd he (gen_pos_ne_of_lt div p1 p2 hdiv hlt h2)
  · exact heq
  · exact absurd he.symm (gen_pos_ne_of_lt div p2 p1 hdiv hgt h1)

theorem gen_geo_inj (cols rows c1 r1 c2 r2 : Nat) (hcle : cols ≤ 101) (hrle : rows ≤ 101)
    (hc1 : c1 < cols) (hr1 : r1 < rows) (hc2 : c2 < cols) (hr2 : r2 < rows)
    (he : gen_geo cols rows c1 r1 = gen_geo cols rows c2 r2) : c1 = c2 ∧ r1 = r2 := by
  have hx : gen_pos cols c1 = gen_pos cols c2 := congrArg GeoSpec.xAnchor he
  have hy : gen_pos rows r1 = gen_pos rows r2 := congrArg GeoSpec.yAnchor he
  exact ⟨gen_pos_inj cols c1 c2 hcle hc1 hc2 hx, gen_pos_inj rows r1 r2 hrle hr1 hr2 hy⟩

/-- An earlier position's tile ends (in percent) no later than a later
position's tile begins: the produced rectangles never overlap. -/
theorem anchor_sep (div p1 p2 : Nat) (hdiv : 0 < div) (hlt : p1 < p2) (h2 : p2 < div) :
    anchorOff (100 / div) (gen_pos div p1) + 100 / div ≤
      anchorOff (100 / div) (gen_pos div p2) := by
  have hw50 : div ≥ 2 → 100 / div ≤ 50 := fun hd2 =>
    le_trans (Nat.div_le_div_left hd2 (by norm_num)) (by norm_num)
  unfold gen_pos
  by_cases hz1 : p1 = 0
  · rw [if_pos hz1, if_neg (by omega : ¬ p2 = 0)]
    by_cases hm2 : p2 < div - 1
    · rw [if_pos hm2]
      show 0 + 100 / div ≤ 100 * p2 / div
      rw [Nat.zero_add, show (100 : Nat) = 100 * 1 by norm_num]
      exact Nat.div_le_div_right (by omega)
    · rw [if_neg hm2]
      show 0 + 100 / div ≤ 100 - 100 / div
      have := hw50 (by omega)
      omega
  · rw [if_neg hz1, if_neg (by omega : ¬ p2 = 0)]
    by_cases hm1 : p1 < div - 1
    · by_cases hm2 : p2 < div - 1
      · rw [if_pos hm1, if_pos hm2]
        show 100 * p1 / div + 100 / div ≤ 100 * p2 / div
        have hA : 100 * p1 / div + 100 / div ≤ (100 * p1 + 100) / div :=
          div_add_div_le _ _ _ hdiv
        have hB : (100 * p1 + 100) / div ≤ 100 * p2 / div :=
          Nat.div_le_div_right (by omega)
        omega
      · rw [if_pos hm1, if_neg hm2]
        show 100 * p1 / div + 100 / div ≤ 100 - 100 / div
        have hA : 100 * p1 / div + 100 / div ≤ (100 * p1 + 100) / div :=
          div_add_div_le _ _ _ hdiv
        have hB : (100 * p1 + 100) / div ≤ 100 * (div - 1) / div :=
          Nat.div_le_div_right (by omega)
        have hC : 100 * (div - 1) / div + 100 / div ≤ 100 := by
          have h1 : 100 * (div - 1) / div + 100 / div ≤ (100 * (div - 1) + 100) / div :=
            div_add_div_le _ _ _ hdiv
          have h2 : 100 * (div - 1) + 100 = 100 * div := by omega
          rw [h2] at h1
          have h3 : 100 * div / div = 100 := Nat.mul_div_cancel 100 hdiv
          omega
        omega
    · exfalso
      omega

/-- Distinct `(col, row)` pairs of one division produce rectangles with no
common point. -/
theorem tiles_disjoint (cols rows c1 r1 c2 r2 x y : Nat) (hc : 0 < cols) (hr : 0 < rows)
    (hc1 : c1 < cols) (hr1 : r1 < rows) (hc2 : c2 < cols) (hr2 : r2 < rows)
    (hne : (c1, r1) ≠ (c2, r2)) :
    ¬ (inTile (gen_geo cols rows c1 r1) x y ∧ inTile (gen_geo cols rows c2 r2) x y) := by
  rintro ⟨t1, t2⟩
  simp only [inTile, gen_geo] at t1 t2
  by_cases hcc : c1 = c2
  · have hrr : r1 ≠ r2 := fun h => hne (by rw [hcc, h])
    rcases Nat.lt_or_ge r1 r2 with hlt | hge
    · have := anchor_sep rows r1 r2 hr hlt hr2
      omega
    · have := anchor_sep rows r2 r1 hr (by omega) hr1
      omega
  · rcases Nat.lt_or_ge c1 c2 with hlt | hge
    · have := anchor_sep cols c1 c2 hc hlt hc2
      omega
    · have := anchor_sep cols c2 c1 hc (by omega) hc1
      omega

/-- When the division count divides 100, every anchor offset equals
`pos * (100 / div)`. -/
theorem gen_pos_off_of_dvd (div p : Nat) (hdivpos : 0 < div) (hdvd : div ∣ 100)
    (hp : p < div) : anchorOff (100 / div) (gen_pos div p) = p * (100 / div) := by
  obtain ⟨w, hw⟩ := hdvd
  have hwdiv : 100 / div = w := by
    rw [hw]
    exact Nat.mul_div_cancel_left w hdivpos
  unfold gen_pos
  by_cases hz : p = 0
  · subst hz
    rw [if_pos rfl]
    simp [anchorOff]
  · rw [if_neg hz]
    by_cases hm : p < div - 1
    · rw [if_pos hm]
      show 100 * p / div = p * (100 / div)
      rw [hwdiv, hw, mul_assoc, Nat.mul_div_cancel_left _ hdivpos]
      exact Nat.mul_comm w p
    · rw [if_neg hm]
      show 100 - 100 / div = p * (100 / div)
      have hp1 : p = div - 1 := by omega
      rw [hwdiv, hp1, hw, Nat.sub_mul, one_mul]

/-- When columns and rows both divide 100, the tiles cover every point of
the 100×100 percent area. -/
theorem tiles_cover (cols rows x y : Nat) (hc : 0 < cols) (hr : 0 < rows)
    (hcd : cols ∣ 100) (hrd : rows ∣ 100) (hx : x < 100) (hy : y < 100) :
    covered cols rows x y := by
  obtain ⟨w, hw⟩ := hcd
  obtain ⟨v, hv⟩ := hrd
  have hwdiv : 100 / cols = w := by rw [hw]; exact Nat.mul_div_cancel_left w hc
  have hvdiv : 100 / rows = v := by rw [hv]; exact Nat.mul_div_cancel_left v hr
  have hwpos : 0 < w := by
    rcases Nat.eq_zero_or_pos w with h0 | h
    · subst h0
      rw [Nat.mul_zero] at hw
      exact absurd hw (by norm_num)
    · exact h
  have hvpos : 0 < v := by
    rcases Nat.eq_zero_or_pos v with h0 | h
    · subst h0
      rw [Nat.mul_zero] at hv
      exact absurd hv (by norm_num)
    · exact h
  have hcollt : x / w < cols := by
    rw [Nat.div_lt_iff_lt_mul hwpos, ← hw]
    exact hx
  have hrowlt : y / v < rows := by
    rw [Nat.div_lt_iff_lt_mul hvpos, ← hv]
    exact hy
  refine ⟨(y / v) * cols + x / w, ?_, ?_⟩
  · have h1 : (y / v) * cols + x / w < (y / v) * cols + cols := Nat.add_lt_add_left hcollt _
    have h2 : (y / v) * cols + cols = (y / v + 1) * cols := (Nat.succ_mul _ _).symm
    have h3 : (y / v + 1) * cols ≤ rows * cols := Nat.mul_le_mul_right _ (by omega)
    have h4 : (y / v) * cols + x / w < rows * cols := lt_of_lt_of_le (h2 ▸ h1) h3
    exact Nat.mul_comm rows cols ▸ h4
  · have hm : ((y / v) * cols + x / w) % cols = x / w := by
      rw [Nat.mul_comm (y / v) cols, Nat.mul_add_mod]
      exact Nat.mod_eq_of_lt hcollt
    have hd : ((y / v) * cols + x / w) / cols = y / v := by
      rw [Nat.mul_comm (y / v) cols, Nat.mul_add_div hc, Nat.div_eq_of_lt hcollt,
        Nat.add_zero]
    have hidx : idx2pos cols ((y / v) * cols + x / w) = (x / w, y / v) := by
      simp [idx2pos, hm, hd]
    rw [hidx]
    have hoffx : anchorOff (100 / cols) (gen_pos cols (x / w)) = (x / w) * (100 / cols) :=
      gen_pos_off_of_dvd cols (x / w) hc ⟨w, hw⟩ hcollt
    have hoffy : anchorOff (100 / rows) (gen_pos rows (y / v)) = (y / v) * (100 / rows) :=
      gen_pos_off_of_dvd rows (y / v) hr ⟨v, hv⟩ hrowlt
    simp only [inTile, gen_geo]
    rw [hoffx, hoffy, hwdiv, hvdiv]
    have hxlt : x < x / w * w + w := by
      have h1 := Nat.div_add_mod x w
      have h2 := Nat.mod_lt x hwpos
      calc x = w * (x / w) + x % w := h1.symm
        _ < w * (x / w) + w := Nat.add_lt_add_left h2 _
        _ = x / w * w + w := by rw [Nat.mul_comm]
    have hylt : y < y / v * v + v := by
      have h1 := Nat.div_add_mod y v
      have h2 := Nat.mod_lt y hvpos
      calc y = v * (y / v) + y % v := h1.symm
        _ < v * (y / v) + v := Nat.add_lt_add_left h2 _
        _ = y / v * v + v := by rw [Nat.mul_comm]
    exact ⟨Nat.div_mul_le_self x w, hxlt, Nat.div_mul_le_self y v, hylt⟩

/-- When the division count does not divide 100, the last interior tile
ends at least one percent short of the right-aligned tile: the sum of the
interior offset and two tile widths stays below 100. -/
theorem mid_end_le (c p : Nat) (hc3 : 3 ≤ c) (hc100 : c ≤ 100) (hp : p ≤ c - 2)
    (hnd : ¬ c ∣ 100) : 100 * p / c + 100 / c + 100 / c ≤ 99 := by
  have hcpos : 0 < c := by omega
  have hr1 : 1 ≤ 100 % c := by
    rcases Nat.eq_zero_or_pos (100 % c) with h0 | h
    · exact absurd (Nat.dvd_of_mod_eq_zero h0) hnd
    · exact h
  have hrlt : 100 % c < c := Nat.mod_lt _ hcpos
  have hqr := Nat.div_add_mod 100 c
  have hcq : c * (100 / c) = 100 - 100 % c := Nat.eq_sub_of_add_eq hqr
  have hc2q : c * (100 / c + 100 / c) = 200 - 2 * (100 % c) := by
    rw [Nat.mul_add, hcq]
    omega
  have hstep : (c * (100 / c + 100 / c) + 100 * p) / c = 100 / c + 100 / c + 100 * p / c :=
    Nat.mul_add_div hcpos _ _
  have hple : 100 * p ≤ 100 * (c - 2) := Nat.mul_le_mul_left _ hp
  have hnum : c * (100 / c + 100 / c) + 100 * p ≤ 100 * c - 2 := by
    rw [hc2q]
    omega
  have hmono : (c * (100 / c + 100 / c) + 100 * p) / c ≤ (100 * c - 2) / c :=
    Nat.div_le_div_right hnum
  have hfinal : (100 * c - 2) / c = 99 := by
    have h1 : 100 * c - 2 = c * 99 + (c - 2) := by omega
    rw [h1, Nat.mul_add_div hcpos, Nat.div_eq_of_lt (by omega)]
  rw [hstep] at hmono
  omega

/-- When the division count does not divide 100, the coordinate
`99 - 100/div` lies in no tile's interval on that axis: the flooring
leaves an uncovered strip. -/
theorem axis_gap (div p : Nat) (hdiv : 0 < div) (hnd : ¬ div ∣ 100) (hp : p < div) :
    ¬ (anchorOff (100 / div) (gen_pos div p) ≤ 99 - 100 / div ∧
        99 - 100 / div < anchorOff (100 / div) (gen_pos div p) + 100 / div) := by
  rintro ⟨hx1, hx2⟩
  rcases Nat.eq_zero_or_pos (100 / div) with hq0 | hqpos
  · rw [hq0] at hx1 hx2
    omega
  · have hd100 : div ≤ 100 := by
      by_contra hgt
      have : 100 / div = 0 := Nat.div_eq_of_lt (by omega)
      omega
    have hc3 : 3 ≤ div := by
      by_contra hlt
      have hcase : div = 1 ∨ div = 2 := by omega
      rcases hcase with h1 | h2
      · subst h1
        exact hnd (one_dvd 100)
      · subst h2
        exact hnd (by norm_num)
    have hq33 : 100 / div ≤ 33 :=
      le_trans (Nat.div_le_div_left hc3 (by norm_num)) (by norm_num)
    unfold gen_pos at hx1 hx2
    by_cases hz : p = 0
    · rw [if_pos hz] at hx2
      simp only [anchorOff] at hx2
      omega
    · rw [if_neg hz] at hx1 hx2
      by_cases hm : p < div - 1
      · rw [if_pos hm] at hx1 hx2
        simp only [anchorOff] at hx1 hx2
        have := mid_end_le div p hc3 hd100 (by omega) hnd
        omega
      · rw [if_neg hm] at hx1
        simp only [anchorOff] at hx1
        omega

/-- When the column count does not divide 100, the vertical strip at
`x = 99 - 100/cols` is covered by no tile, at every height. -/
theorem tiles_gap_col (cols rows y : Nat) (hc : 0 < cols) (hnd : ¬ cols ∣ 100) :
    ¬ covered cols rows (99 - 100 / cols) y := by
  rintro ⟨idx, hidx, ht⟩
  simp only [inTile, gen_geo, idx2pos] at ht
  exact axis_gap cols (idx % cols) hc hnd (Nat.mod_lt _ hc) ⟨ht.1, ht.2.1⟩

/-- When the row count does not divide 100, the horizontal strip at
`y = 99 - 100/rows` is covered by no tile, at every abscissa. -/
theorem tiles_gap_row (cols rows x : Nat) (hc : 0 < cols) (hr : 0 < rows)
    (hnd : ¬ rows ∣ 100) : ¬ covered cols rows x (99 - 100 / rows) := by
  rintro ⟨idx, hidx, ht⟩
  simp only [inTile, gen_geo, idx2pos] at ht
  have hrow : idx / cols < rows := by
    rw [Nat.div_lt_iff_lt_mul hc]
    exact lt_of_lt_of_le hidx (le_of_eq (Nat.mul_comm cols rows))
  exact axis_gap rows (idx / cols) hr hnd hrow ⟨ht.2.2.1, ht.2.2.2⟩

/-- C7 (amended): for a `cols × rows` division, each tile's width is
`100 // cols` percent and its height `100 // rows` percent (integer
division, not exact division); the generator is injective over valid
`(col, row)` pairs provided `cols` and `rows` are at most 101 (at 102
distinct interior columns collide); the produced rectangles are pairwise
disjoint in every division; and they cover the full 100×100 area exactly
when `cols` and `rows` both divide 100: covering is proved under
divisibility, and when `cols` (resp. `rows`) does not divide 100 the whole
strip at `x = 99 - 100/cols` (resp. `y = 99 - 100/rows`) is uncovered, so
full coverage is equivalent to the divisibility of both counts. -/
theorem c7_geometry_amended (cols rows : Nat) (hc : 0 < cols) (hr : 0 < rows) :
    (∀ col row, (gen_geo cols rows col row).wPct = 100 / cols ∧
        (gen_geo cols rows col row).hPct = 100 / rows)
    ∧ (cols ≤ 101 → rows ≤ 101 → ∀ c1 r1 c2 r2, c1 < cols → r1 < rows → c2 < cols →
        r2 < rows → gen_geo cols rows c1 r1 = gen_geo cols rows c2 r2 → c1 = c2 ∧ r1 = r2)
    ∧ (∀ c1 r1 c2 r2 x y, c1 < cols → r1 < rows → c2 < cols → r2 < rows →
        (c1, r1) ≠ (c2, r2) →
        ¬ (inTile (gen_geo cols rows c1 r1) x y ∧ inTile (gen_geo cols rows c2 r2) x y))
    ∧ (cols ∣ 100 → rows ∣ 100 → ∀ x y, x < 100 → y < 100 → covered cols rows x y)
    ∧ (¬ cols ∣ 100 → ∀ y, ¬ covered cols rows (99 - 100 / cols) y)
    ∧ (¬ rows ∣ 100 → ∀ x, ¬ covered cols rows x (99 - 100 / rows))
    ∧ ((∀ x y, x < 100 → y < 100 → covered cols rows x y) ↔ (cols ∣ 100 ∧ rows ∣ 100)) := by
  refine ⟨fun _ _ => ⟨rfl, rfl⟩, ?_, ?_, ?_, ?_, ?_, ?_⟩
  · intro hcle hrle c1 r1 c2 r2 hc1 hr1 hc2 hr2 he
    exact gen_geo_inj cols rows c1 r1 c2 r2 hcle hrle hc1 hr1 hc2 hr2 he
  · intro c1 r1 c2 r2 x y hc1 hr1 hc2 hr2 hne
    exact tiles_disjoint cols rows c1 r1 c2 r2 x y hc hr hc1 hr1 hc2 hr2 hne
  · intro hcd hrd x y hx hy
    exact tiles_cover cols rows x y hc hr hcd hrd hx hy
  · intro hnd y
    exact tiles_gap_col cols rows y hc hnd
  · intro hnd x
    exact tiles_gap_row cols rows x hc hr hnd
  · constructor
    · intro hall
      constructor
      · by_contra hnd
        exact tiles_gap_col cols rows 0 hc hnd
          (hall (99 - 100 / cols) 0 (Nat.sub_lt_succ 99 (100 / cols)) (by norm_num))
      · by_contra hnd
        exact tiles_gap_row cols rows 0 hc hr hnd
          (hall 0 (99 - 100 / rows) (by norm_num) (Nat.sub_lt_succ 99 (100 / rows)))
    · rintro ⟨h1, h2⟩ x y hx hy
      exact tiles_cover cols rows x y hc hr h1 h2 hx hy

/-- C7 witness: the amended theorem applied to the 2×1 division shows the
point `(55, 0)` covered. -/
theorem c7_geometry_amended_witness :
    0 < 2 ∧ 0 < 1 ∧ covered 2 1 55 0 ∧ ¬ covered 3 2 66 0 :=
  ⟨by decide, by decide,
    (c7_geometry_amended 2 1 (by decide) (by decide)).2.2.2.1 (by decide) (by decide) 55 0
      (by decide) (by decide),
    (c7_geometry_amended 3 2 (by decide) (by decide)).2.2.2.2.1 (by decide) 0⟩

/-- The mutable state read and written by one tick of `AutoMotionTimer.run`:
the shared booleans (the `AUTO` and `MOTION` entries of the `bools` list),
the local `counter`, and the local `last_auto`. -/
structure AmtState where
  auto : Bool
  motion : Bool
  counter : Nat
  last_auto : Bool
deriving DecidableEq

/-- One iteration of the `while` loop in `AutoMotionTimer.run`: read and
clear the motion trigger, increment the counter up to the limit, and — when
automatic mode is on — fire the on/off callbacks per the trigger, the
timeout comparison, and the auto-enable edge detect. Returns the new state
together with how many times `_on_fun` and `_off_fun` were invoked. -/
def amt_tick (timeout : Nat) (s : AmtState) : AmtState × Nat × Nat :=
  let trig := s.motion
  let motion1 := if trig then false else s.motion
  let c1 := if s.counter < timeout then s.counter + 1 else s.counter
  if s.auto then
    let c2 := if trig then 0 else c1
    let on1 := if trig then 1 else 0
    let onOff : Nat × Nat :=
      if c2 ≥ timeout then (0, 1)
      else if s.last_auto = false then (1, 0)
      else (0, 0)
    (⟨s.auto, motion1, c2, s.auto⟩, on1 + onOff.1, onOff.2)
  else
    (⟨s.auto, motion1, c1, s.auto⟩, 0, 0)

/-- C9 counterexample: on a tick where automatic mode has just been
enabled (`auto = true`, `last_auto = false`) with no motion and the idle
counter at the timeout (500, the default `auto_timeout`), the timer
invokes the "off" action and never invokes the "on" action — so the claim
that the edge invokes "on" once for every counter and motion value fails. -/
theorem c9_edge_on_cex :
    (amt_tick 500 ⟨true, false, 500, false⟩).2.1 = 0 ∧
      (amt_tick 500 ⟨true, false, 500, false⟩).2.2 = 1 := by decide

/-- C9 (amended): on every tick with the auto-enable edge (`auto = true`,
`last_auto = false`), the "on" action is invoked once if motion triggered,
plus once more if the updated counter (0 after motion, otherwise the
bounded increment) is still below the timeout; in particular it is not
invoked at all when the counter has reached the timeout with no motion —
in that case the "off" action fires instead, and "off" fires exactly when
the updated counter has reached the timeout. -/
theorem c9_edge_on_amended (timeout : Nat) (s : AmtState) (hauto : s.auto = true)
    (hlast : s.last_auto = false) :
    (amt_tick timeout s).2.1 =
      (if s.motion then 1 else 0) +
        (if (if s.motion then 0 else if s.counter < timeout then s.counter + 1 else s.counter)
            < timeout then 1 else 0)
    ∧ (amt_tick timeout s).2.2 =
      (if (if s.motion then 0 else if s.counter < timeout then s.counter + 1 else s.counter)
          < timeout then 0 else 1) := by
  obtain ⟨a, m, c, l⟩ := s
  simp only at hauto hlast
  subst hauto
  subst hlast
  cases m <;> (simp only [amt_tick]; split_ifs <;> simp_all <;> omega)

/-- C9 witness: the amended characterisation at a concrete edge tick
(timeout 5, counter 0, no motion): "on" fires once, "off" does not. -/
theorem c9_edge_on_amended_witness :
    (amt_tick 5 ⟨true, false, 0, false⟩).2.1 = 1 ∧
      (amt_tick 5 ⟨true, false, 0, false⟩).2.2 = 0 :=
  ⟨((c9_edge_on_amended 5 ⟨true, false, 0, false⟩ rfl rfl).1).trans (by decide),
    ((c9_edge_on_amended 5 ⟨true, false, 0, false⟩ rfl rfl).2).trans (by decide)⟩

/-- A started player worker process: the slot whose mailbox it reads
(`queue_in`), the slot whose mailbox it signals when ready (`queue_out`),
and its numeric name — exactly the `args` of the `multiprocessing.Process`
built in `_handle_player`. -/
structure Worker where
  inSlot : Nat
  outSlot : Nat
  pname : Nat
deriving DecidableEq

/-- The scheduler state of `SecurityMonitor`: the visible-player count
`self._div[2]`, the `2 × tiles` mailboxes `self.que`, the worker slots
`self.proc`, and the rotation cursor `p_cnt` of `main`. -/
structure SMState where
  tiles : Nat
  que : List (List Bool)
  proc : List (Option Worker)
  p_cnt : Nat

/-- Observable scheduler actions, in program order. -/
inductive SMEvent where
  | drained (slot : Nat)
  | started (w : Worker)
  | joined (slot : Nat) (timeout : Nat)
  | killed (slot : Nat)
deriving DecidableEq

/-- `SecurityMonitor._handle_player`: compute the slot to (re)start —
`(last_p + tiles) % (tiles * 2)` when the scheduler is `running`, `last_p`
itself during startup — build the worker bound to read its own slot's
queue and post readiness into the partner slot's queue, clear the new
slot's queue, and start the process. -/
def handle_player (st : SMState) (last_p : Nat) (running : Bool) : SMState × List SMEvent :=
  let i_play := if running then (last_p + st.tiles) % (st.tiles * 2) else last_p
  let out_p := if running then last_p else (last_p + st.tiles) % (st.tiles * 2)
  let w : Worker := ⟨i_play, out_p, i_play⟩
  ({ st with que := st.que.set i_play [], proc := st.proc.set i_play (some w) },
    [.drained i_play, .started w])

/-- One rotation tick of `SecurityMonitor.main` (the body of
`if time_cnt >= self.refresh_rate`): start the replacement player via
`_handle_player(p_cnt)`, join the retiring slot `p_cnt` with the 15-second
timeout, kill it if it did not exit (`exitcode is None`; the oracle
`exited` says whether the join succeeded), and advance the cursor. -/
def rotation_tick (st : SMState) (exited : Bool) : SMState × List SMEvent :=
  let hp := handle_player st st.p_cnt true
  ({ hp.1 with p_cnt := (st.p_cnt + 1) % (st.tiles * 2) },
    hp.2 ++ [.joined st.p_cnt 15] ++ (if exited then [] else [.killed st.p_cnt]))

/-- C1: on a rotation tick with cursor `p` and `tileCount` tiles, the
scheduler (1) first drains the mailbox of `next = (p + tiles) % (2*tiles)`
and then starts there a worker that reads slot `next`'s mailbox and posts
its readiness signal into predecessor slot `p`'s mailbox, (2) joins slot
`p`'s worker with the 15-second join timeout and kills it exactly when the
join left it alive, (3) advances the cursor to `(p + 1) % (2*tiles)`, and
afterwards slot `next`'s mailbox is empty and slot `next` holds the new
worker. -/
theorem c1_rotation_tick (st : SMState) (exited : Bool)
    (hq : st.que.length = st.tiles * 2) (hp : st.proc.length = st.tiles * 2)
    (hpos : 0 < st.tiles) :
    (rotation_tick st exited).2 =
      [.drained ((st.p_cnt + st.tiles) % (st.tiles * 2)),
        .started ⟨(st.p_cnt + st.tiles) % (st.tiles * 2), st.p_cnt,
          (st.p_cnt + st.tiles) % (st.tiles * 2)⟩,
        .joined st.p_cnt 15] ++ (if exited then [] else [.killed st.p_cnt])
    ∧ (rotation_tick st exited).1.p_cnt = (st.p_cnt + 1) % (st.tiles * 2)
    ∧ ((rotation_tick st exited).1.que)[(st.p_cnt + st.tiles) % (st.tiles * 2)]? = some []
    ∧ ((rotation_tick st exited).1.proc)[(st.p_cnt + st.tiles) % (st.tiles * 2)]? =
        some (some ⟨(st.p_cnt + st.tiles) % (st.tiles * 2), st.p_cnt,
          (st.p_cnt + st.tiles) % (st.tiles * 2)⟩) := by
  have hlt : (st.p_cnt + st.tiles) % (st.tiles * 2) < st.tiles * 2 :=
    Nat.mod_lt _ (by omega)
  refine ⟨rfl, rfl, ?_, ?_⟩
  · simp only [rotation_tick, handle_player, if_pos rfl]
    exact List.getElem?_set_eq_of_lt _ (by rw [hq]; exact hlt)
  · simp only [rotation_tick, handle_player, if_pos rfl]
    exact List.getElem?_set_eq_of_lt _ (by rw [hp]; exact hlt)

/-- C1 witness: a concrete rotation tick with 2 tiles, 4 slots and cursor
0: slot 2 is drained and started bound to predecessor 0, slot 0 is joined
with timeout 15 (no kill since it exited), and the cursor advances to 1. -/
theorem c1_rotation_tick_witness :
    ((⟨2, [[true], [], [], []], [none, none, none, none], 0⟩ : SMState).que.length = 2 * 2)
    ∧ ((rotation_tick ⟨2, [[true], [], [], []], [none, none, none, none], 0⟩ true).2 =
        [.drained 2, .started ⟨2, 0, 2⟩, .joined 0 15]
      ∧ (rotation_tick ⟨2, [[true], [], [], []], [none, none, none, none], 0⟩ true).1.p_cnt = 1) := by
  have h := c1_rotation_tick ⟨2, [[true], [], [], []], [none, none, none, none], 0⟩ true
    (by decide) (by decide) (by decide)
  exact ⟨by decide, h.1.trans (by decide), h.2.1.trans (by decide)⟩

/-- What one poll of the shutdown loop in `_play_process` observes: whether
`queue_in.get(timeout=1)` returned a message (`none` models the `Empty`
timeout) and whether `player.core_shutdown` was set when the `finally`
block ran. -/
structure PlayObs where
  msg : Option Bool
  coreShutdown : Bool

/-- Events a `_play_process` worker performs on its environment. -/
inductive PlayEvent where
  | engineTerminated
  | readyPosted
  | globalStopPosted
deriving DecidableEq

/-- The shutdown loop of `_play_process`: on every poll the `finally` block
checks `player.core_shutdown` — if set, the worker posts to the global
stop queue (`self._queue_all`) and breaks; otherwise a received message
breaks the loop and an `Empty` timeout continues. Returns the posted
events and whether the loop exited within the observed polls. -/
def play_loop : List PlayObs → List PlayEvent × Bool
  | [] => ([], false)
  | o :: rest =>
      if o.coreShutdown then ([.globalStopPosted], true)
      else
        match o.msg with
        | some _ => ([], true)
        | none => play_loop rest

/-- `SecurityMonitor._play_process` from the point the engine is configured
and told to play: `startOk` is the outcome of
`wait_until_playing(timeout=15)` — on timeout or engine error the `except`
arm terminates the engine; the `finally` arm always posts the readiness
signal into `queue_out`, the predecessor slot's mailbox; then the shutdown
loop runs, and the engine is terminated after leaving it. -/
def play_process (startOk : Bool) (obs : List PlayObs) : List PlayEvent :=
  (if startOk then [] else [.engineTerminated]) ++ [.readyPosted] ++
    (play_loop obs).1 ++ (if (play_loop obs).2 then [.engineTerminated] else [])

theorem play_loop_no_shutdown : ∀ obs : List PlayObs,
    (∀ o ∈ obs, o.coreShutdown = false) → (play_loop obs).1 = []
  | [], _ => rfl
  | o :: rest, h => by
      simp only [play_loop]
      rw [if_neg (by simp [h o (by simp)])]
      cases hm : o.msg
      · simp only [hm]
        exact play_loop_no_shutdown rest (fun x hx => h x (by simp [hx]))
      · simp [hm]

/-- C8: a worker whose engine fails to reach the playing state within the
bounded wait (`startOk = false`) stops its engine first, still posts the
readiness signal into the predecessor slot's mailbox (so rotation is not
blocked by this slot), and — as long as the engine has not died on its own
(`core_shutdown` never observed) — never posts to the global stop queue:
the start failure alone does not escalate to the global stop signal. -/
theorem c8_start_failure (obs : List PlayObs) (h : ∀ o ∈ obs, o.coreShutdown = false) :
    (play_process false obs).head? = some .engineTerminated
    ∧ PlayEvent.readyPosted ∈ play_process false obs
    ∧ PlayEvent.globalStopPosted ∉ play_process false obs := by
  have hl := play_loop_no_shutdown obs h
  unfold play_process
  rw [hl]
  refine ⟨rfl, by simp, ?_⟩
  cases hex : (play_loop obs).2 <;> simp

/-- C8 witness: the failure path at a concrete one-poll observation
sequence with a healthy engine. -/
theorem c8_start_failure_witness :
    (∀ o ∈ [PlayObs.mk (some true) false], o.coreShutdown = false)
    ∧ ((play_process false [PlayObs.mk (some true) false]).head? = some .engineTerminated
      ∧ PlayEvent.readyPosted ∈ play_process false [PlayObs.mk (some true) false]
      ∧ PlayEvent.globalStopPosted ∉ play_process false [PlayObs.mk (some true) false]) :=
  ⟨by simp, c8_start_failure [PlayObs.mk (some true) false] (by simp)⟩

/-- The `MonitorTop.MTState` player state machine. -/
inductive MTState where
  | playing
  | stopped
  | restart
deriving DecidableEq

/-- The `MonitorTop` state touched by command handling: the `bools` flags
(in `BLIndex` order: `PM_ABLE`, `AUTO`, `MOTION`, `SCREEN_OFF`), the state
machine, and the contents of the `stop_playing` queue. -/
structure MonState where
  pm_able : Bool
  auto : Bool
  motion : Bool
  screen_off : Bool
  mtstate : MTState
  stop_playing : List Bool
deriving DecidableEq

/-- `MonitorTop.mon_on`: if the screen is off, clear `SCREEN_OFF` and drain
the `stop_playing` queue. -/
def mon_on (st : MonState) : MonState :=
  if st.screen_off then { st with screen_off := false, stop_playing := [] } else st

/-- `MonitorTop.mon_off`: if the screen is on, set `SCREEN_OFF` and post to
the `stop_playing` queue. -/
def mon_off (st : MonState) : MonState :=
  if st.screen_off = false then
    { st with screen_off := true, stop_playing := st.stop_playing ++ [true] }
  else st

/-- `MonitorTop.mon_restart`: post to `stop_playing` and request the
RESTART state. -/
def mon_restart (st : MonState) : MonState :=
  { st with stop_playing := st.stop_playing ++ [true], mtstate := .restart }

theorem mon_on_screen (st : MonState) : (mon_on st).screen_off = false := by
  unfold mon_on
  split_ifs with h
  · rfl
  · simpa using h

theorem mon_off_screen (st : MonState) : (mon_off st).screen_off = true := by
  unfold mon_off
  split_ifs with h
  · rfl
  · simpa using h

theorem mon_on_auto (st : MonState) : (mon_on st).auto = st.auto := by
  unfold mon_on
  split_ifs <;> rfl

theorem mon_off_auto (st : MonState) : (mon_off st).auto = st.auto := by
  unfold mon_off
  split_ifs <;> rfl

/-- JSON values, as far as command handling inspects them. Containers
(arrays and objects) are abstracted to whether they are empty, which is
all that Python truthiness observes about them. -/
inductive JVal where
  | jnull
  | jbool (b : Bool)
  | jnum (n : Int)
  | jstr (s : String)
  | jcontainer (isEmpty : Bool)
deriving DecidableEq

/-- Python truthiness of a JSON value. -/
def truthy : JVal → Bool
  | .jnull => false
  | .jbool b => b
  | .jnum n => n != 0
  | .jstr s => s != ""
  | .jcontainer e => !e

/-- Lookup in a parsed JSON object (Python `"k" in data` and `data["k"]`). -/
def jlookup (data : List (String × JVal)) (k : String) : Option JVal :=
  (data.find? fun p => p.1 == k).map fun p => p.2

/-- The successfully regex-split and `json.loads`-parsed command: the raw
JSON substring (`matches[1]`), the parsed object, and the signature half
(`matches[2]`). -/
structure Envelope where
  rawJson : String
  data : List (String × JVal)
  signature : String

/-- The digest function of `hmac.new(token, msg, hashlib.sha256)`,
modelled abstractly: the external library primitive is a parameter taking
the key bytes and the message and returning the digest bytes. -/
def HmacFn : Type := List Nat → String → List Nat

/-- `Utils.wr_hmac`: unpadded base64 of the HMAC digest of the message
keyed by the token. -/
def wr_hmac (hd : HmacFn) (msg : String) (token : List Nat) : String :=
  b64enc (hd token msg)

/-- `MonitorTop.msg_auth`: compare the expected HMAC of the message under
every decoded token against the received code; the final `assert match` is
modelled as the returned Bool (`false` raises the `AssertionError` caught
by `cmd_msg_apply`). -/
def msg_auth (hd : HmacFn) (tokens : List (List Nat)) (msg code : String) : Bool :=
  tokens.any fun token => wr_hmac hd msg token == code

/-- `MonitorTop.cmd_msg_apply` after the wire regex and `json.loads`: the
`parsed` argument is `none` when the regex did not match or JSON parsing
failed (both leave `retval = 1` and the state untouched); `maxDelta` is
`config.max_cmd_delta` and `now` is `time.time()`. The result is `none`
for an uncaught exception — a missing or non-numeric `time` field raises
`KeyError`/`TypeError`, which are not in the `except` clause — otherwise
the pair of the returned `retval` and the updated state. -/
def cmd_msg_apply (hd : HmacFn) (tokens : List (List Nat)) (maxDelta now : Int)
    (parsed : Option Envelope) (st : MonState) : Option (Nat × MonState) :=
  match parsed with
  | none => some (1, st)
  | some env =>
      match jlookup env.data "time" with
      | some (.jnum sent) =>
          if ¬ (|now - sent| ≤ maxDelta) then some (1, st)
          else if ¬ msg_auth hd tokens env.rawJson env.signature then some (1, st)
          else
            match jlookup env.data "restart" with
            | some refresh =>
                if truthy refresh then some (0, mon_restart st) else some (1, st)
            | none =>
                if jlookup env.data "auto" = some (.jbool true) then
                  some (0, { st with auto := true })
                else
                  match jlookup env.data "force" with
                  | some force =>
                      if truthy force then some (0, mon_on { st with auto := false })
                      else some (0, mon_off { st with auto := false })
                  | none => some (1, st)
      | some _ => none
      | none => none

/-- The acknowledgment `UDPListen.run` sends back: `response` stays `"NO"`
unless the `cmd_msg_apply` return value is falsy. -/
def udp_response (retval : Nat) : String := if retval == 0 then "OK" else "NO"

/-- C2: for an authenticated, fresh command, dispatch follows the
field-presence precedence restart, then auto, then force: a present truthy
`restart` field requests a state-machine restart (the RESTART state with a
stop signal posted); with no `restart` field, `auto == true` sets the
`AUTO` flag; with no `restart` field and `auto` not equal to `true`, a
present `force` field clears `AUTO` and sets `SCREEN_OFF` to the negation
of the force value (truthy force turns the display on through `mon_on`,
falsy force turns it off through `mon_off`). -/
theorem c2_dispatch_precedence (hd : HmacFn) (tokens : List (List Nat)) (maxDelta now : Int)
    (env : Envelope) (st : MonState) (sent : Int)
    (htime : jlookup env.data "time" = some (.jnum sent))
    (hfresh : |now - sent| ≤ maxDelta)
    (hauth : msg_auth hd tokens env.rawJson env.signature = true) :
    (∀ v, jlookup env.data "restart" = some v → truthy v = true →
      cmd_msg_apply hd tokens maxDelta now (some env) st = some (0, mon_restart st)
        ∧ (mon_restart st).mtstate = .restart
        ∧ (mon_restart st).stop_playing = st.stop_playing ++ [true])
    ∧ (jlookup env.data "restart" = none →
        jlookup env.data "auto" = some (.jbool true) →
        cmd_msg_apply hd tokens maxDelta now (some env) st = some (0, { st with auto := true }))
    ∧ (∀ f, jlookup env.data "restart" = none →
        jlookup env.data "auto" ≠ some (.jbool true) →
        jlookup env.data "force" = some f →
        ∃ st2, cmd_msg_apply hd tokens maxDelta now (some env) st = some (0, st2)
          ∧ st2.auto = false ∧ st2.screen_off = !(truthy f)) := by
  refine ⟨?_, ?_, ?_⟩
  · intro v hres htr
    refine ⟨?_, rfl, rfl⟩
    simp [cmd_msg_apply, htime, hres, hfresh, hauth, htr]
  · intro hres hat
    simp [cmd_msg_apply, htime, hres, hat, hfresh, hauth]
  · intro f hres hat hforce
    refine ⟨if truthy f then mon_on { st with auto := false }
      else mon_off { st with auto := false }, ?_, ?_, ?_⟩
    · simp only [cmd_msg_apply, htime, hres, hforce]
      rw [if_neg (not_not_intro hfresh), if_neg (by simp [hauth]), if_neg hat]
      split_ifs <;> rfl
    · cases htr : truthy f <;> simp [htr, mon_on_auto, mon_off_auto]
    · cases htr : truthy f <;> simp [htr, mon_on_screen, mon_off_screen]

/-- C4: a command whose embedded `time` differs from the current time by
more than `max_cmd_delta` fails the freshness assertion before `msg_auth`
is ever consulted: the caught `AssertionError` leaves every flag, the
state machine and the `stop_playing` queue unchanged and the failure value
1 is returned — for every digest function, token set and signature,
correct ones included. -/
theorem c4_stale_rejected (hd : HmacFn) (tokens : List (List Nat)) (maxDelta now : Int)
    (env : Envelope) (st : MonState) (sent : Int)
    (htime : jlookup env.data "time" = some (.jnum sent))
    (hstale : maxDelta < |now - sent|) :
    cmd_msg_apply hd tokens maxDelta now (some env) st = some (1, st) := by
  have h := not_le.mpr hstale
  simp [cmd_msg_apply, htime, h]

/-- C3: `verify` (the `msg_auth` loop over `wr_hmac`) succeeds on
`sign(m, s)` whenever `s` is anywhere in the ordered secret set, fails
whenever no secret reproduces the signature, and in particular fails on
any mutated message `m2` whose digests (under every secret) differ from
the signed digest — the digest function is the external HMAC-SHA256,
modelled abstractly, so the mutation case carries the collision-freeness
of the digests as a hypothesis. -/
theorem c3_verify (hd : HmacFn) (secrets : List (List Nat)) (m : String) (s : List Nat) :
    (s ∈ secrets → msg_auth hd secrets m (wr_hmac hd m s) = true)
    ∧ (∀ sig, (∀ t ∈ secrets, wr_hmac hd m t ≠ sig) → msg_auth hd secrets m sig = false)
    ∧ (∀ m2, (∀ x ∈ hd s m, x < 256) →
        (∀ t ∈ secrets, hd t m2 ≠ hd s m ∧ (∀ x ∈ hd t m2, x < 256)) →
        msg_auth hd secrets m2 (wr_hmac hd m s) = false) := by
  refine ⟨?_, ?_, ?_⟩
  · intro hs
    simp only [msg_auth, List.any_eq_true, beq_iff_eq]
    exact ⟨s, hs, rfl⟩
  · intro sig h
    simp only [msg_auth, List.any_eq_false]
    intro t ht
    simpa using h t ht
  · intro m2 hsv h
    have hne : ∀ t ∈ secrets, wr_hmac hd m2 t ≠ wr_hmac hd m s := by
      intro t ht he
      have hinj := b64enc_injOn (hd t m2) (hd s m) (h t ht).2 hsv he
      exact (h t ht).1 hinj
    simp only [msg_auth, List.any_eq_false]
    intro t ht
    simpa using hne t ht

/-- C10: an authenticated, fresh command that triggers no action leaves
every flag, the state machine and the `stop_playing` queue unchanged and
still returns the failure value 1, which the UDP transport acknowledges
with "NO". This covers both a command with a present-but-falsy `restart`
field — whose presence short-circuits the `elif` chain, suppressing any
`auto` or `force` fields in the same message (the envelope's `data` is
arbitrary here, so it may contain them) — and a command containing none of
the three action fields. -/
theorem c10_noop_returns_failure (hd : HmacFn) (tokens : List (List Nat))
    (maxDelta now : Int) (env : Envelope) (st : MonState) (sent : Int)
    (htime : jlookup env.data "time" = some (.jnum sent))
    (hfresh : |now - sent| ≤ maxDelta)
    (hauth : msg_auth hd tokens env.rawJson env.signature = true) :
    (∀ v, jlookup env.data "restart" = some v → truthy v = false →
      cmd_msg_apply hd tokens maxDelta now (some env) st = some (1, st))
    ∧ (jlookup env.data "restart" = none →
        jlookup env.data "auto" ≠ some (.jbool true) →
        jlookup env.data "force" = none →
        cmd_msg_apply hd tokens maxDelta now (some env) st = some (1, st))
    ∧ udp_response 1 = "NO" := by
  refine ⟨?_, ?_, rfl⟩
  · intro v hres htr
    simp [cmd_msg_apply, htime, hres, hfresh, hauth, htr]
  · intro hres hat hforce
    simp only [cmd_msg_apply, htime, hres, hforce]
    rw [if_neg (not_not_intro hfresh), if_neg (by simp [hauth]), if_neg hat]

/-- A concrete digest function standing in for the external HMAC-SHA256 in
the witnesses: key bytes followed by the message length. -/
def hdW : HmacFn := fun t m2 => t ++ [m2.length % 256]

/-- A concrete pre-command state for the witnesses. -/
def stW : MonState := ⟨false, true, false, false, .playing, []⟩

/-- A concrete authenticated envelope requesting a restart. -/
def envRestartW : Envelope :=
  ⟨"raw", [("time", .jnum 5), ("restart", .jbool true)], wr_hmac hdW "raw" [7]⟩

/-- A concrete authenticated envelope with a falsy `restart` field that
also carries `auto = true`. -/
def envNoopW : Envelope :=
  ⟨"raw", [("time", .jnum 5), ("restart", .jbool false), ("auto", .jbool true)],
    wr_hmac hdW "raw" [7]⟩

/-- C2 witness: the dispatch theorem at a concrete authenticated, fresh
restart command. -/
theorem c2_dispatch_precedence_witness :
    jlookup envRestartW.data "time" = some (.jnum 5)
    ∧ |(5 : Int) - 5| ≤ (10 : Int)
    ∧ msg_auth hdW [[7]] envRestartW.rawJson envRestartW.signature = true
    ∧ cmd_msg_apply hdW [[7]] 10 5 (some envRestartW) stW = some (0, mon_restart stW) := by
  have h := c2_dispatch_precedence hdW [[7]] 10 5 envRestartW stW 5 (by decide) (by decide)
    (by decide)
  exact ⟨by decide, by decide, by decide, (h.1 (.jbool true) (by decide) (by decide)).1⟩

/-- C4 witness: the stale-rejection theorem at a concrete command sent
9995 seconds in the past with the default 7200-second window, carrying a
correct signature. -/
theorem c4_stale_rejected_witness :
    jlookup envRestartW.data "time" = some (.jnum 5)
    ∧ (7200 : Int) < |(10000 : Int) - 5|
    ∧ msg_auth hdW [[7]] envRestartW.rawJson envRestartW.signature = true
    ∧ cmd_msg_apply hdW [[7]] 7200 10000 (some envRestartW) stW = some (1, stW) :=
  ⟨by decide, by decide, by decide,
    c4_stale_rejected hdW [[7]] 7200 10000 envRestartW stW 5 (by decide) (by decide)⟩

/-- C3 witness: signing and verification with the concrete digest at
secret `[2]` inside the set `[[1], [2]]`, and failure on a different
message. -/
theorem c3_verify_witness :
    (([2] : List Nat) ∈ ([[1], [2]] : List (List Nat)))
    ∧ msg_auth hdW [[1], [2]] "ab" (wr_hmac hdW "ab" [2]) = true
    ∧ msg_auth hdW [[1], [2]] "xyz" (wr_hmac hdW "ab" [2]) = false := by
  refine ⟨by decide, (c3_verify hdW [[1], [2]] "ab" [2]).1 (by decide), ?_⟩
  exact (c3_verify hdW [[1], [2]] "ab" [2]).2.2 "xyz" (by decide) (by decide)

/-- C10 witness: the no-op theorem at a concrete authenticated, fresh
command whose `restart` field is false and which also carries
`auto = true`; the reply is "NO". -/
theorem c10_noop_returns_failure_witness :
    jlookup envNoopW.data "restart" = some (.jbool false)
    ∧ jlookup envNoopW.data "auto" = some (.jbool true)
    ∧ cmd_msg_apply hdW [[7]] 10 5 (some envNoopW) stW = some (1, stW)
    ∧ udp_response 1 = "NO" := by
  have h := c10_noop_returns_failure hdW [[7]] 10 5 envNoopW stW 5 (by decide) (by decide)
    (by decide)
  exact ⟨by decide, by decide, h.1 (.jbool false) (by decide) (by decide), h.2.2⟩

end SecMon
